import Mathlib

/-!
Verification of the tendency-evaluation engine of the qgs repository
(src/functions/tendencies.py and its call contract for the sparse
contraction kernels).

Real coefficients are modelled by an arbitrary commutative ring `R` (the
contraction kernels only add and multiply); concrete evaluations instantiate
`R := ℤ`, and the claims under study are exact algebraic identities, which
the spec requires to hold up to floating-point summation order.

Sparse tensors follow the coordinate/value split of the source: a list of
integer coordinate triples `(i, j, k)` in parallel with a list of values,
as produced by `agotensor.tensor.coords.T` and `agotensor.tensor.data`.
-/

variable {R : Type} [CommRing R]

/-- Row contribution of one sparse entry to output row `i` of the trilinear
contraction: `val * u[j] * v[k]` when the entry's row is `i`, else `0`. -/
def triContrib (u v : List R) (i : Nat) (e : (Nat × Nat × Nat) × R) : R :=
  if e.1.1 = i then e.2 * u.getD e.1.2.1 0 * v.getD e.1.2.2 0 else 0

/-- Accumulated value of output row `i`: sum of the contributions of every
entry of the coordinate/value list. -/
def triRow (entries : List ((Nat × Nat × Nat) × R)) (u v : List R) (i : Nat) : R :=
  (entries.map (triContrib u v i)).sum

/-- Shape check for a sparse coordinate list: every row/first/second index is
inside the output/`u`/`v` ranges respectively. -/
def coordsOK (coo : List (Nat × Nat × Nat)) (n m : Nat) : Bool :=
  coo.all fun c => decide (c.1 < n) && decide (c.2.1 < n) && decide (c.2.2 < m)

/-- Modelled from the spec: `sparse_mul3` (functions/sparse.py, not under src/).
Spec 4.1: given the coordinate array, value array and two vectors `u`, `v`,
produce `y` with `y[i] = sum over entries (i,j,k,val) of val * u[j] * v[k]`,
accumulating entries sharing a row, `0` for rows with no entries, output sized
like the input vectors; coordinates out of range are a fatal shape error
(spec section 7: fail fast, never truncate or clamp), modelled as `none`. -/
def sparse_mul3 (coo : List (Nat × Nat × Nat)) (val : List R) (u v : List R) :
    Option (List R) :=
  if coordsOK coo u.length v.length then
    some ((List.range u.length).map (triRow (coo.zip val) u v))
  else none

/-- Matrix-cell contribution of one sparse entry to cell `(i, j)` of the
bilinear (Jacobian) contraction: `val * xx[k]` when the entry's first two
indices are `(i, j)`, else `0`. -/
def biContrib (xx : List R) (i j : Nat) (e : (Nat × Nat × Nat) × R) : R :=
  if e.1.1 = i ∧ e.1.2.1 = j then e.2 * xx.getD e.1.2.2 0 else 0

/-- Accumulated value of Jacobian cell `(i, j)`. -/
def biCell (entries : List ((Nat × Nat × Nat) × R)) (xx : List R) (i j : Nat) : R :=
  (entries.map (biContrib xx i j)).sum

/-- Modelled from the spec: `sparse_mul2` (functions/sparse.py, not under src/).
Spec 4.2: given the Jacobian coordinate array (stored as 3-index entries whose
third index is contracted against `xx`), the value array and the vector `xx`,
produce the dense matrix `M` with `M[i,j] = sum over entries (i,j,val) of
val * xx[k]`, accumulating duplicate `(i,j)` pairs; out-of-range coordinates
are a fatal shape error (spec section 7), modelled as `none`. -/
def sparse_mul2 (coo : List (Nat × Nat × Nat)) (val : List R) (xx : List R) :
    Option (List (List R)) :=
  if coordsOK coo xx.length xx.length then
    some ((List.range xx.length).map fun i =>
      (List.range xx.length).map (biCell (coo.zip val) xx i))
  else none

/-- Embedding of `xx = np.concatenate((np.full((1,), 1.), x))` from
src/functions/tendencies.py lines 75 and 85: the augmented state vector. -/
def augment (x : List R) : List R := 1 :: x

/-- Embedding of the closure `f` of src/functions/tendencies.py lines 73-78:
`f(t, x)` augments `x`, contracts the trilinear tensor with `u = v = xx`, and
returns `xr[1:]`. The closed-over arrays `coo`, `val` are explicit arguments. -/
def f (coo : List (Nat × Nat × Nat)) (val : List R) (t : R) (x : List R) :
    Option (List R) :=
  (sparse_mul3 coo val (augment x) (augment x)).map fun xr => xr.drop 1

/-- Embedding of the closure `Df` of src/functions/tendencies.py lines 83-87:
`Df(t, x)` augments `x`, contracts the Jacobian tensor, and returns the
trailing block `mul_jac[1:, 1:]`. -/
def Df (jcoo : List (Nat × Nat × Nat)) (jval : List R) (t : R) (x : List R) :
    Option (List (List R)) :=
  (sparse_mul2 jcoo jval (augment x)).map fun m => (m.drop 1).map fun r => r.drop 1

example : f (R := ℤ) [(1, 0, 0)] [5] 0 [2, 3] = some [5, 0] := by decide

example : f (R := ℤ) [(1, 0, 0), (1, 1, 1), (2, 0, 2)] [10, -1, 3] 0 [2, 4]
    = some [6, 12] := by decide

example : Df (R := ℤ) [(1, 1, 1)] [-1] 0 [2, 4] = some [[-2, 0], [0, 0]] := by
  decide

/-- Parameter object: the fields of `params.QgParams` read by
`create_tendencies` (src/functions/tendencies.py lines 55-68): the atmospheric
block specification, the ground/ocean block specification, and the name of the
ground/ocean temperature configuration. Block contents are uninterpreted handles. -/
structure QgParams where
  ablocks : Option Nat
  goblocks : Option Nat
  gotemperature_name : String
deriving DecidableEq

/-- Modelled from the spec: `OceanicInnerProducts` (inner_products/analytic.py,
not under src/); spec section 6: a coefficient provider constructed from a
parameter object. -/
structure OceanicInnerProducts where
  params : QgParams
deriving DecidableEq

/-- Modelled from the spec: `AtmosphericInnerProducts` (inner_products/analytic.py,
not under src/); spec section 6: a coefficient provider constructed from a
parameter object, with a coupling operation binding it to an oceanic provider. -/
structure AtmosphericInnerProducts where
  params : QgParams
  connected_ocean : Option OceanicInnerProducts := none
deriving DecidableEq

/-- Modelled from the spec: `aip.connect_to_ocean(oip)` — the coupling
operation of spec sections 4.3 and 6, binding the oceanic provider to the
atmospheric one (invoked once, before tensor assembly). -/
def connect_to_ocean (aip : AtmosphericInnerProducts) (oip : OceanicInnerProducts) :
    AtmosphericInnerProducts :=
  { aip with connected_ocean := some oip }

/-- Modelled from the spec: the `QgsTensor` object (tensors/qgtensor.py, not
under src/) as consumed by `create_tendencies`; spec section 6: it exposes the
trilinear tensor and the Jacobian tensor in coordinate-list form. -/
structure QgsTensor (R : Type) where
  tensor_coords : List (Nat × Nat × Nat)
  tensor_data : List R
  jacobian_coords : List (Nat × Nat × Nat)
  jacobian_data : List R

/-- The atmospheric-provider decision of src/functions/tendencies.py lines
55-58: `aip` is constructed iff atmospheric blocks are configured. -/
def assembled_aip0 (params : QgParams) : Option AtmosphericInnerProducts :=
  if params.ablocks.isSome then some { params := params } else none

/-- The ocean-provider decision of src/functions/tendencies.py lines 60-63:
`oip` is constructed only when `goblocks` is configured AND the ground/ocean
temperature configuration is the one named "Oceanic Temperature"; otherwise
`oip = None`. -/
def assembled_oip (params : QgParams) : Option OceanicInnerProducts :=
  if params.goblocks.isSome ∧ params.gotemperature_name = "Oceanic Temperature" then
    some { params := params }
  else none

/-- The coupling step of src/functions/tendencies.py lines 65-66: when both
providers exist, the atmospheric one is connected to the oceanic one. -/
def assembled_aip (params : QgParams) : Option AtmosphericInnerProducts :=
  match assembled_aip0 params, assembled_oip params with
  | some a, some o => some (connect_to_ocean a o)
  | _, _ => assembled_aip0 params

/-- One element of the heterogeneous list returned by `create_tendencies`
(src/functions/tendencies.py lines 89-96). -/
inductive RetItem (R : Type) where
  | evalF (fn : R → List R → Option (List R))
  | evalDf (fn : R → List R → Option (List (List R)))
  | innerProducts (aip : Option AtmosphericInnerProducts)
      (oip : Option OceanicInnerProducts)
  | qgtensor (tensor : QgsTensor R)

/-- The return-list construction of src/functions/tendencies.py lines 89-96:
the two evaluators closed over the assembled tensor arrays, then optionally
the inner products, then optionally the tensor object. -/
def tendenciesRet (agotensor : QgsTensor R) (aip : Option AtmosphericInnerProducts)
    (oip : Option OceanicInnerProducts)
    (return_inner_products return_qgtensor : Bool) : List (RetItem R) :=
  let ret1 := [RetItem.evalF (f agotensor.tensor_coords agotensor.tensor_data),
               RetItem.evalDf (Df agotensor.jacobian_coords agotensor.jacobian_data)]
  let ret2 := if return_inner_products
    then ret1 ++ [RetItem.innerProducts aip oip] else ret1
  if return_qgtensor then ret2 ++ [RetItem.qgtensor agotensor] else ret2

/-- Embedding of `create_tendencies` (src/functions/tendencies.py lines 18-96).
The external tensor builder (`QgsTensor(aip, oip)`, out of the engine's scope
per spec sections 1-2) is the explicit argument `build`. -/
def create_tendencies
    (build : Option AtmosphericInnerProducts → Option OceanicInnerProducts → QgsTensor R)
    (params : QgParams) (return_inner_products return_qgtensor : Bool) :
    List (RetItem R) :=
  tendenciesRet (build (assembled_aip params) (assembled_oip params))
    (assembled_aip params) (assembled_oip params)
    return_inner_products return_qgtensor

/-- A heap of numpy vector buffers, indexed by allocation order; fresh arrays
are appended at the end. -/
abbrev Store (R : Type) := List (List R)

/-- Allocation semantics of `np.concatenate((np.full((1,), 1.), x))`
(src/functions/tendencies.py lines 75 and 85): numpy `concatenate` always
writes into a freshly allocated output buffer and only reads its arguments.
Returns the grown store and the id of the fresh buffer. -/
def np_concatenate_one (s : Store R) (xid : Nat) : Store R × Nat :=
  (s ++ [1 :: s.getD xid []], s.length)

/-- Store-level embedding of the body of `f` (src/functions/tendencies.py
lines 74-78): reads the caller's buffer `xid`, allocates the augmented vector
`xx` and the kernel output `xr` as fresh buffers, and returns the final store
together with the value `xr[1:]` (a view into the fresh `xr` buffer). -/
def f_impl (coo : List (Nat × Nat × Nat)) (val : List R) (s : Store R) (t : R)
    (xid : Nat) : Store R × Option (List R) :=
  let p := np_concatenate_one s xid
  let xx := p.1.getD p.2 []
  match sparse_mul3 coo val xx xx with
  | none => (p.1, none)
  | some xr => (p.1 ++ [xr], some (xr.drop 1))

/-- Store-level embedding of the body of `Df` (src/functions/tendencies.py
lines 84-87): reads the caller's buffer `xid`, allocates the augmented vector
as a fresh buffer, and returns the trailing block of the kernel's matrix (the
matrix buffer itself is not representable in a vector store and is returned
as the call's value). -/
def Df_impl (jcoo : List (Nat × Nat × Nat)) (jval : List R) (s : Store R) (t : R)
    (xid : Nat) : Store R × Option (List (List R)) :=
  let p := np_concatenate_one s xid
  let xx := p.1.getD p.2 []
  match sparse_mul2 jcoo jval xx with
  | none => (p.1, none)
  | some m => (p.1, some ((m.drop 1).map fun r => r.drop 1))

/-! ## Helper lemmas -/

/-- A sum of guarded terms equals the sum over the filtered list. -/
theorem sum_map_ite_eq_filter {α M : Type} [AddCommMonoid M] (l : List α)
    (p : α → Prop) [DecidablePred p] (g : α → M) :
    (l.map fun e => if p e then g e else 0).sum
      = ((l.filter fun e => decide (p e)).map g).sum := by
  induction l with
  | nil => rfl
  | cons a l ih => by_cases h : p a <;> simp [h, ih]

/-- Reading `(List.range n).map g` at `i < n` gives `g i`. -/
theorem getD_range_map {β : Type} (g : Nat → β) (d : β) {n i : Nat} (h : i < n) :
    ((List.range n).map g).getD i d = g i := by
  rw [List.getD_eq_getElem?_getD, List.getElem?_map]
  simp [List.getElem?_range h]

/-- Reading a mapped list inside its bounds maps the read element. -/
theorem getD_map_of_lt {α β : Type} (l : List α) (g : α → β) (d : β) (d' : α)
    {i : Nat} (h : i < l.length) :
    (l.map g).getD i d = g (l.getD i d') := by
  rw [List.getD_eq_getElem?_getD, List.getElem?_map, List.getElem?_eq_getElem h]
  simp [List.getD_eq_getElem?_getD, List.getElem?_eq_getElem h]

/-- Reading `l.drop 1` at `i` reads `l` at `i + 1`. -/
theorem getD_drop_one {β : Type} (l : List β) (d : β) (i : Nat) :
    (l.drop 1).getD i d = l.getD (i + 1) d := by
  cases l <;> simp [List.getD]

/-- `List.all` is invariant under permutation. -/
theorem all_eq_of_perm {α : Type} {l l' : List α} (h : l.Perm l') (p : α → Bool) :
    l.all p = l'.all p := by
  induction h with
  | nil => rfl
  | cons a h ih => simp [List.all_cons, ih]
  | swap a b l => simp [List.all_cons, Bool.and_left_comm]
  | trans h1 h2 ih1 ih2 => rw [ih1, ih2]

/-- The shape check passes exactly when every coordinate is in range. -/
theorem coordsOK_eq_true {coo : List (Nat × Nat × Nat)} {n m : Nat} :
    coordsOK coo n m = true ↔ ∀ c ∈ coo, c.1 < n ∧ c.2.1 < n ∧ c.2.2 < m := by
  simp [coordsOK, List.all_eq_true, and_assoc]

/-- Successful trilinear contraction: with in-range coordinates the kernel
returns a vector sized like `u` whose row `i` is the sum of
`val * u[j] * v[k]` over the entries whose row index is `i`. -/
theorem sparse_mul3_eval (coo : List (Nat × Nat × Nat)) (val : List R)
    (u v : List R) (h : coordsOK coo u.length v.length = true) :
    ∃ y, sparse_mul3 coo val u v = some y ∧ y.length = u.length ∧
      ∀ i, i < u.length →
        y.getD i 0 = (((coo.zip val).filter fun e => decide (e.1.1 = i)).map
          (fun e => e.2 * u.getD e.1.2.1 0 * v.getD e.1.2.2 0)).sum := by
  refine ⟨(List.range u.length).map (triRow (coo.zip val) u v), ?_, by simp, ?_⟩
  · simp [sparse_mul3, h]
  · intro i hi
    rw [getD_range_map _ _ hi]
    simp only [triRow]
    exact sum_map_ite_eq_filter (coo.zip val) (fun e => e.1.1 = i)
      (fun e => e.2 * u.getD e.1.2.1 0 * v.getD e.1.2.2 0)

/-- Successful bilinear contraction: with in-range coordinates the kernel
returns a dense square matrix sized like `xx` whose cell `(i, j)` is the sum
of `val * xx[k]` over the entries whose first two indices are `(i, j)`. -/
theorem sparse_mul2_eval (coo : List (Nat × Nat × Nat)) (val : List R)
    (xx : List R) (h : coordsOK coo xx.length xx.length = true) :
    ∃ M, sparse_mul2 coo val xx = some M ∧ M.length = xx.length ∧
      (∀ r ∈ M, r.length = xx.length) ∧
      ∀ i j, i < xx.length → j < xx.length →
        (M.getD i []).getD j 0
          = (((coo.zip val).filter fun e => decide (e.1.1 = i ∧ e.1.2.1 = j)).map
            (fun e => e.2 * xx.getD e.1.2.2 0)).sum := by
  refine ⟨(List.range xx.length).map fun i =>
      (List.range xx.length).map (biCell (coo.zip val) xx i), ?_, by simp, ?_, ?_⟩
  · simp [sparse_mul2, h]
  · intro r hr
    simp only [List.mem_map] at hr
    obtain ⟨i, _, rfl⟩ := hr
    simp
  · intro i j hi hj
    rw [getD_range_map _ _ hi, getD_range_map _ _ hj]
    simp only [biCell]
    exact sum_map_ite_eq_filter (coo.zip val) (fun e => e.1.1 = i ∧ e.1.2.1 = j)
      (fun e => e.2 * xx.getD e.1.2.2 0)

/-- C1: for every state vector `x` of length N, `f(t, x)` builds the augmented
vector `xx` with `xx[0] = 1` and `xx[1:] = x`, contracts the trilinear tensor
with `u = v = xx` — the full output `y` satisfying
`y[i] = sum over entries (i,j,k,val) of val * xx[j] * xx[k]` — and returns `y`
with index 0 dropped, a vector of exactly length N. The hypothesis is the
spec's tensor well-formedness (section 3): coordinates lie in `[0, N]`. -/
theorem claim_C1_f_augments_contracts_drops (coo : List (Nat × Nat × Nat))
    (val : List R) (t : R) (x : List R)
    (h : ∀ c ∈ coo, c.1 < x.length + 1 ∧ c.2.1 < x.length + 1 ∧ c.2.2 < x.length + 1) :
    (augment x).getD 0 0 = 1 ∧ (augment x).drop 1 = x ∧
    ∃ y, sparse_mul3 coo val (augment x) (augment x) = some y ∧
      y.length = x.length + 1 ∧
      (∀ i, i < x.length + 1 →
        y.getD i 0 = (((coo.zip val).filter fun e => decide (e.1.1 = i)).map
          (fun e => e.2 * (augment x).getD e.1.2.1 0 * (augment x).getD e.1.2.2 0)).sum) ∧
      f coo val t x = some (y.drop 1) ∧ (y.drop 1).length = x.length := by
  have hlen : (augment x).length = x.length + 1 := by simp [augment]
  have hok : coordsOK coo (augment x).length (augment x).length = true := by
    rw [hlen]; exact coordsOK_eq_true.mpr h
  obtain ⟨y, hy, hylen, hpt⟩ := sparse_mul3_eval coo val (augment x) (augment x) hok
  refine ⟨rfl, rfl, y, hy, by rw [hylen, hlen], ?_, ?_, ?_⟩
  · intro i hi
    exact hpt i (by rw [hlen]; exact hi)
  · simp [f, hy]
  · simp [hylen, hlen]

/-- Witness for C1 at the concrete N = 2 fixture of spec section 8. -/
theorem claim_C1_witness :
    (augment (R := ℤ) [2, 4]).getD 0 0 = 1 ∧
    (augment (R := ℤ) [2, 4]).drop 1 = [2, 4] ∧
    ∃ y, sparse_mul3 [(1, 0, 0), (1, 1, 1), (2, 0, 2)] [10, -1, 3]
        (augment (R := ℤ) [2, 4]) (augment (R := ℤ) [2, 4]) = some y ∧
      y.length = ([2, 4] : List ℤ).length + 1 ∧
      (∀ i, i < ([2, 4] : List ℤ).length + 1 →
        y.getD i 0 = ((([(1, 0, 0), (1, 1, 1), (2, 0, 2)].zip [(10 : ℤ), -1, 3]).filter
            fun e => decide (e.1.1 = i)).map
          (fun e => e.2 * (augment (R := ℤ) [2, 4]).getD e.1.2.1 0
            * (augment (R := ℤ) [2, 4]).getD e.1.2.2 0)).sum) ∧
      f [(1, 0, 0), (1, 1, 1), (2, 0, 2)] [10, -1, 3] 0 [2, 4] = some (y.drop 1) ∧
      (y.drop 1).length = ([2, 4] : List ℤ).length :=
  claim_C1_f_augments_contracts_drops [(1, 0, 0), (1, 1, 1), (2, 0, 2)] [10, -1, 3]
    0 [2, 4] (by decide)

/-- C4: `f` and `Df` are autonomous — the time argument never influences the
result; this holds for every pair of times, in particular distinct ones. -/
theorem claim_C4_autonomy (coo jcoo : List (Nat × Nat × Nat)) (val jval : List R)
    (t1 t2 : R) (x : List R) :
    f coo val t1 x = f coo val t2 x ∧ Df jcoo jval t1 x = Df jcoo jval t2 x :=
  ⟨rfl, rfl⟩

/-- C2: for every state vector `x` of length N, `Df(t, x)` builds the same
augmented vector, contracts the bilinear (Jacobian) tensor with it into a
dense (N+1)x(N+1) matrix `M` with
`M[i,j] = sum over entries (i,j,val) of val * xx[k]`, and returns the trailing
N x N block `M[1:,1:]`, dropping the augmentation row and column. The
hypothesis is the spec's tensor well-formedness (section 3). -/
theorem claim_C2_Df_contracts_and_trims (jcoo : List (Nat × Nat × Nat))
    (jval : List R) (t : R) (x : List R)
    (h : ∀ c ∈ jcoo, c.1 < x.length + 1 ∧ c.2.1 < x.length + 1 ∧ c.2.2 < x.length + 1) :
    ∃ M, sparse_mul2 jcoo jval (augment x) = some M ∧
      M.length = x.length + 1 ∧ (∀ r ∈ M, r.length = x.length + 1) ∧
      (∀ i j, i < x.length + 1 → j < x.length + 1 →
        (M.getD i []).getD j 0
          = (((jcoo.zip jval).filter fun e => decide (e.1.1 = i ∧ e.1.2.1 = j)).map
            (fun e => e.2 * (augment x).getD e.1.2.2 0)).sum) ∧
      Df jcoo jval t x = some ((M.drop 1).map fun r => r.drop 1) ∧
      ((M.drop 1).map fun r => r.drop 1).length = x.length ∧
      (∀ r ∈ (M.drop 1).map fun r => r.drop 1, r.length = x.length) ∧
      (∀ i j, i < x.length → j < x.length →
        ((((M.drop 1).map fun r => r.drop 1).getD i []).getD j 0)
          = (M.getD (i + 1) []).getD (j + 1) 0) := by
  have hlen : (augment x).length = x.length + 1 := by simp [augment]
  have hok : coordsOK jcoo (augment x).length (augment x).length = true := by
    rw [hlen]; exact coordsOK_eq_true.mpr h
  obtain ⟨M, hM, hMlen, hrows, hpt⟩ := sparse_mul2_eval jcoo jval (augment x) hok
  refine ⟨M, hM, by rw [hMlen, hlen], ?_, ?_, ?_, ?_, ?_, ?_⟩
  · intro r hr
    rw [hrows r hr, hlen]
  · intro i j hi hj
    exact hpt i j (by rw [hlen]; exact hi) (by rw [hlen]; exact hj)
  · simp [Df, hM]
  · simp [hMlen, hlen]
  · intro r hr
    simp only [List.mem_map] at hr
    obtain ⟨r0, hr0, rfl⟩ := hr
    have : r0 ∈ M := List.drop_subset 1 M hr0
    simp [hrows r0 this, hlen]
  · intro i j hi hj
    have hi' : i < (M.drop 1).length := by
      simp only [List.length_drop, hMlen, hlen]
      omega
    rw [getD_map_of_lt (M.drop 1) (fun r => r.drop 1) [] [] hi']
    rw [getD_drop_one M [] i, getD_drop_one]

/-- Witness for C2 at a concrete fixture. -/
theorem claim_C2_witness :
    ∃ M, sparse_mul2 [(1, 1, 1)] [-1] (augment (R := ℤ) [2, 4]) = some M ∧
      M.length = ([2, 4] : List ℤ).length + 1 ∧
      (∀ r ∈ M, r.length = ([2, 4] : List ℤ).length + 1) ∧
      (∀ i j, i < ([2, 4] : List ℤ).length + 1 → j < ([2, 4] : List ℤ).length + 1 →
        (M.getD i []).getD j 0
          = ((([(1, 1, 1)].zip [(-1 : ℤ)]).filter
              fun e => decide (e.1.1 = i ∧ e.1.2.1 = j)).map
            (fun e => e.2 * (augment (R := ℤ) [2, 4]).getD e.1.2.2 0)).sum) ∧
      Df [(1, 1, 1)] [-1] 0 [2, 4] = some ((M.drop 1).map fun r => r.drop 1) ∧
      ((M.drop 1).map fun r => r.drop 1).length = ([2, 4] : List ℤ).length ∧
      (∀ r ∈ (M.drop 1).map fun r => r.drop 1, r.length = ([2, 4] : List ℤ).length) ∧
      (∀ i j, i < ([2, 4] : List ℤ).length → j < ([2, 4] : List ℤ).length →
        ((((M.drop 1).map fun r => r.drop 1).getD i []).getD j 0)
          = (M.getD (i + 1) []).getD (j + 1) 0) :=
  claim_C2_Df_contracts_and_trims [(1, 1, 1)] [-1] 0 [2, 4] (by decide)

/-- C3: the trilinear contraction used by `f` gives, for every row `i` in
`[0, N]`, the sum of `val * u[j] * v[k]` over the entries with row `i`;
rows with no entries yield exactly 0; the result is invariant under any
reordering of the entry list; repeated coordinates are accumulated (the row
value sums every entry, including coordinate duplicates), not overwritten. -/
theorem claim_C3_sparse_mul3_contract (coo : List (Nat × Nat × Nat)) (val : List R)
    (u v : List R) (hl : coo.length = val.length)
    (hok : coordsOK coo u.length v.length = true) :
    ∃ y, sparse_mul3 coo val u v = some y ∧ y.length = u.length ∧
      (∀ i, i < u.length →
        y.getD i 0 = (((coo.zip val).filter fun e => decide (e.1.1 = i)).map
          (fun e => e.2 * u.getD e.1.2.1 0 * v.getD e.1.2.2 0)).sum) ∧
      (∀ i, i < u.length → (∀ e ∈ coo.zip val, e.1.1 ≠ i) → y.getD i 0 = 0) ∧
      (∀ coo2 val2, coo2.length = val2.length →
        (coo.zip val).Perm (coo2.zip val2) →
        sparse_mul3 coo2 val2 u v = sparse_mul3 coo val u v) := by
  obtain ⟨y, hy, hylen, hpt⟩ := sparse_mul3_eval coo val u v hok
  refine ⟨y, hy, hylen, hpt, ?_, ?_⟩
  · intro i hi hz
    have hnil : (coo.zip val).filter (fun e => decide (e.1.1 = i)) = [] := by
      rw [List.filter_eq_nil_iff]
      intro e he
      simpa using hz e he
    rw [hpt i hi, hnil]
    simp
  · intro coo2 val2 hl2 hperm
    have h1 : (coo.zip val).map Prod.fst = coo := List.map_fst_zip coo val (le_of_eq hl)
    have h2 : (coo2.zip val2).map Prod.fst = coo2 := List.map_fst_zip coo2 val2 (le_of_eq hl2)
    have hcoo : coo2.Perm coo := by
      have := (hperm.map Prod.fst).symm
      rwa [h1, h2] at this
    have hcoords : coordsOK coo2 u.length v.length = coordsOK coo u.length v.length :=
      all_eq_of_perm hcoo _
    have hmap : ∀ i, triRow (coo2.zip val2) u v i = triRow (coo.zip val) u v i :=
      fun i => ((hperm.symm).map (triContrib u v i)).sum_eq
    simp only [sparse_mul3, hcoords, hok, if_true]
    exact congrArg some (List.map_congr_left fun i _ => hmap i)

/-- Witness for C3 at a concrete fixture with a duplicate coordinate. -/
theorem claim_C3_witness :
    ∃ y, sparse_mul3 (R := ℤ) [(1, 0, 0), (1, 0, 0), (0, 1, 1)] [7, 9, 2] [3, 4] [3, 4]
        = some y ∧
      y.length = ([3, 4] : List ℤ).length ∧
      (∀ i, i < ([3, 4] : List ℤ).length →
        y.getD i 0 = ((([(1, 0, 0), (1, 0, 0), (0, 1, 1)].zip [(7 : ℤ), 9, 2]).filter
            fun e => decide (e.1.1 = i)).map
          (fun e => e.2 * ([3, 4] : List ℤ).getD e.1.2.1 0
            * ([3, 4] : List ℤ).getD e.1.2.2 0)).sum) ∧
      (∀ i, i < ([3, 4] : List ℤ).length →
        (∀ e ∈ [(1, 0, 0), (1, 0, 0), (0, 1, 1)].zip [(7 : ℤ), 9, 2], e.1.1 ≠ i) →
        y.getD i 0 = 0) ∧
      (∀ coo2 val2, coo2.length = val2.length →
        (([(1, 0, 0), (1, 0, 0), (0, 1, 1)].zip [(7 : ℤ), 9, 2]).Perm (coo2.zip val2)) →
        sparse_mul3 coo2 val2 [3, 4] [3, 4]
          = sparse_mul3 [(1, 0, 0), (1, 0, 0), (0, 1, 1)] [7, 9, 2] [3, 4] [3, 4]) :=
  claim_C3_sparse_mul3_contract [(1, 0, 0), (1, 0, 0), (0, 1, 1)] [7, 9, 2]
    [3, 4] [3, 4] (by decide) (by decide)

/-- C5: for both evaluators, a tensor with two entries at the same coordinates
`c` with values `v1` and `v2` behaves exactly like the tensor with a single
entry at `c` of value `v1 + v2`, for every state vector and time. -/
theorem claim_C5_duplicate_accumulation (c : Nat × Nat × Nat) (v1 v2 : R)
    (coo : List (Nat × Nat × Nat)) (val : List R) (t : R) (x : List R) :
    f (c :: c :: coo) (v1 :: v2 :: val) t x = f (c :: coo) ((v1 + v2) :: val) t x ∧
    Df (c :: c :: coo) (v1 :: v2 :: val) t x
      = Df (c :: coo) ((v1 + v2) :: val) t x := by
  have hco : ∀ n m, coordsOK (c :: c :: coo) n m = coordsOK (c :: coo) n m := by
    intro n m
    simp only [coordsOK, List.all_cons]
    cases decide (c.1 < n) && decide (c.2.1 < n) && decide (c.2.2 < m) <;> simp
  have htri : ∀ (u v : List R) i,
      triRow ((c, v1) :: (c, v2) :: coo.zip val) u v i
        = triRow ((c, v1 + v2) :: coo.zip val) u v i := by
    intro u v i
    simp only [triRow, List.map_cons, List.sum_cons, triContrib]
    by_cases h : c.1 = i <;> simp [h]
    ring
  have hbi : ∀ (xx : List R) i j,
      biCell ((c, v1) :: (c, v2) :: coo.zip val) xx i j
        = biCell ((c, v1 + v2) :: coo.zip val) xx i j := by
    intro xx i j
    simp only [biCell, List.map_cons, List.sum_cons, biContrib]
    by_cases h : c.1 = i ∧ c.2.1 = j <;> simp [h]
    ring
  have hmul3 : ∀ u v : List R,
      sparse_mul3 (c :: c :: coo) (v1 :: v2 :: val) u v
        = sparse_mul3 (c :: coo) ((v1 + v2) :: val) u v := by
    intro u v
    simp only [sparse_mul3, List.zip_cons_cons, hco]
    by_cases hcond : coordsOK (c :: coo) u.length v.length <;> simp [hcond]
    exact fun i _ => htri u v i
  have hmul2 : ∀ xx : List R,
      sparse_mul2 (c :: c :: coo) (v1 :: v2 :: val) xx
        = sparse_mul2 (c :: coo) ((v1 + v2) :: val) xx := by
    intro xx
    simp only [sparse_mul2, List.zip_cons_cons, hco]
    by_cases hcond : coordsOK (c :: coo) xx.length xx.length <;> simp [hcond]
    exact fun i _ j _ => hbi xx i j
  exact ⟨by simp only [f, hmul3], by simp only [Df, hmul2]⟩

/-- C6 counterexample: with the N = 1 tensor `{(1,0,0) -> 5}` (coordinates in
`[0,1]`), the state vector `[2, 3]` of length 2 ≠ 1 is processed by both
evaluators without any error: they return values (of the input's size, not N),
contradicting the claim that a wrong-length state fails fast. -/
theorem claim_C6_counterexample :
    f (R := ℤ) [(1, 0, 0)] [5] 0 [2, 3] = some [5, 0] ∧
    Df (R := ℤ) [(1, 0, 0)] [5] 0 [2, 3] = some [[0, 0], [0, 0]] ∧
    ([2, 3] : List ℤ).length ≠ 1 := by decide

/-- C6 amended: `f` and `Df` perform no state-length check. A state vector
whose augmentation covers every tensor coordinate — in particular any vector
longer than the configured N — is processed without error and the output is
sized by the input, not by N; only when some coordinate falls outside the
augmented vector (in particular a state shorter than the tensor expects) does
the contraction fail with a shape error; the input is never truncated or
padded. -/
theorem claim_C6_amended_no_length_check (coo jcoo : List (Nat × Nat × Nat))
    (val jval : List R) (t : R) (x : List R) :
    (coordsOK coo (x.length + 1) (x.length + 1) = true →
      ∃ y, f coo val t x = some y ∧ y.length = x.length) ∧
    (coordsOK coo (x.length + 1) (x.length + 1) = false → f coo val t x = none) ∧
    (coordsOK jcoo (x.length + 1) (x.length + 1) = true →
      ∃ m, Df jcoo jval t x = some m ∧ m.length = x.length ∧
        ∀ r ∈ m, r.length = x.length) ∧
    (coordsOK jcoo (x.length + 1) (x.length + 1) = false → Df jcoo jval t x = none) := by
  have hlen : (augment x).length = x.length + 1 := by simp [augment]
  refine ⟨?_, ?_, ?_, ?_⟩
  · intro h
    obtain ⟨y, hy, hylen, -⟩ :=
      sparse_mul3_eval coo val (augment x) (augment x) (by rw [hlen]; exact h)
    exact ⟨y.drop 1, by simp [f, hy], by simp [hylen, hlen]⟩
  · intro h
    have : coordsOK coo (augment x).length (augment x).length = false := by
      rw [hlen]; exact h
    simp [f, sparse_mul3, this]
  · intro h
    obtain ⟨M, hM, hMlen, hrows, -⟩ :=
      sparse_mul2_eval jcoo jval (augment x) (by rw [hlen]; exact h)
    refine ⟨(M.drop 1).map fun r => r.drop 1, by simp [Df, hM], by simp [hMlen, hlen], ?_⟩
    intro r hr
    simp only [List.mem_map] at hr
    obtain ⟨r0, hr0, rfl⟩ := hr
    simp [hrows r0 (List.drop_subset 1 M hr0), hlen]
  · intro h
    have : coordsOK jcoo (augment x).length (augment x).length = false := by
      rw [hlen]; exact h
    simp [Df, sparse_mul2, this]

/-- Witness for the amended C6: a longer-than-N state is processed silently
with input-sized output, and a state too short for a tensor coordinate makes
the contraction fail. -/
theorem claim_C6_amended_witness :
    (∃ y, f (R := ℤ) [(1, 0, 0)] [5] 0 [2, 3] = some y ∧
      y.length = ([2, 3] : List ℤ).length) ∧
    f (R := ℤ) [(2, 0, 0)] [5] 0 [0] = none ∧
    (∃ m, Df (R := ℤ) [(1, 0, 0)] [5] 0 [2, 3] = some m ∧
      m.length = ([2, 3] : List ℤ).length ∧
      ∀ r ∈ m, r.length = ([2, 3] : List ℤ).length) ∧
    Df (R := ℤ) [(2, 0, 0)] [5] 0 [0] = none := by
  refine ⟨?_, ?_, ?_, ?_⟩
  · exact (claim_C6_amended_no_length_check [(1, 0, 0)] [] [5] [] 0 [2, 3]).1 (by decide)
  · exact (claim_C6_amended_no_length_check [(2, 0, 0)] [] [5] [] 0 [0]).2.1 (by decide)
  · exact (claim_C6_amended_no_length_check [] [(1, 0, 0)] [] [5] 0 [2, 3]).2.2.1 (by decide)
  · exact (claim_C6_amended_no_length_check [] [(2, 0, 0)] [] [5] 0 [0]).2.2.2 (by decide)

/-- A concrete stand-in tensor builder for evaluations: its single trilinear
value records whether an oceanic provider was supplied to the assembly. -/
def probeBuild : Option AtmosphericInnerProducts → Option OceanicInnerProducts →
    QgsTensor ℤ :=
  fun _ oip =>
    { tensor_coords := [(1, 0, 0)], tensor_data := [if oip.isSome then 2 else 1],
      jacobian_coords := [], jacobian_data := [] }

/-- An inconsistent configuration: oceanic blocks requested but the
temperature configuration named "Ground Temperature" instead of the required
"Oceanic Temperature". -/
def pInconsistent : QgParams :=
  { ablocks := some 0, goblocks := some 0,
    gotemperature_name := "Ground Temperature" }

/-- The same configuration with no ocean block at all. -/
def pNoOcean : QgParams :=
  { ablocks := some 0, goblocks := none,
    gotemperature_name := "Ground Temperature" }

/-- C7 counterexample: with oceanic blocks configured but a temperature
configuration named "Ground Temperature" (not the required "Oceanic
Temperature"), `create_tendencies` raises no configuration error: it returns
normally with `oip = None` and produces exactly the same assembly — including
the tensor handed to the evaluators — as the configuration with no ocean
block at all, i.e. it silently degrades to atmosphere-only behavior. -/
theorem claim_C7_counterexample :
    assembled_oip pInconsistent = none ∧
    create_tendencies probeBuild pInconsistent false true
      = create_tendencies probeBuild pNoOcean false true := by
  constructor
  · rfl
  · rfl

/-- C7 amended: an inconsistent ocean configuration (goblocks configured but
the temperature configuration not named "Oceanic Temperature") is NOT
detected: `create_tendencies` silently sets `oip = None`, performs no
coupling, and assembles exactly as in the atmosphere-only fallback reserved
for "no ocean block configured"; no error is surfaced. -/
theorem claim_C7_amended_silent_fallback
    (build : Option AtmosphericInnerProducts → Option OceanicInnerProducts →
      QgsTensor R)
    (p : QgParams) (rip rq : Bool)
    (hg : p.goblocks.isSome = true)
    (hn : p.gotemperature_name ≠ "Oceanic Temperature") :
    assembled_oip p = none ∧
    assembled_aip p = assembled_aip0 p ∧
    create_tendencies build p rip rq
      = tendenciesRet (build (assembled_aip0 p) none) (assembled_aip0 p) none
          rip rq := by
  have hoip : assembled_oip p = none := by
    simp [assembled_oip, hn]
  have haip : assembled_aip p = assembled_aip0 p := by
    unfold assembled_aip
    rw [hoip]
    cases assembled_aip0 p <;> rfl
  refine ⟨hoip, haip, ?_⟩
  unfold create_tendencies
  rw [haip, hoip]

/-- Witness for the amended C7 at a concrete inconsistent configuration. -/
theorem claim_C7_amended_witness :
    assembled_oip pInconsistent = none ∧
    assembled_aip pInconsistent = assembled_aip0 pInconsistent ∧
    create_tendencies probeBuild pInconsistent true true
      = tendenciesRet (probeBuild (assembled_aip0 pInconsistent) none)
          (assembled_aip0 pInconsistent) none true true :=
  claim_C7_amended_silent_fallback probeBuild pInconsistent true true
    (by decide) (by decide)

/-- C8: the two flags only extend the returned list; the evaluator entries at
positions 0 and 1 are the very same functions regardless of the flags, and
they are `f`/`Df` closed over the assembled tensor arrays. -/
theorem claim_C8_flags_do_not_change_evaluators
    (build : Option AtmosphericInnerProducts → Option OceanicInnerProducts →
      QgsTensor R)
    (p : QgParams) (rip rq : Bool) :
    ∃ ff fD,
      (create_tendencies build p rip rq)[0]? = some (RetItem.evalF ff) ∧
      (create_tendencies build p false false)[0]? = some (RetItem.evalF ff) ∧
      (create_tendencies build p rip rq)[1]? = some (RetItem.evalDf fD) ∧
      (create_tendencies build p false false)[1]? = some (RetItem.evalDf fD) ∧
      (∀ t x, ff t x
        = f (build (assembled_aip p) (assembled_oip p)).tensor_coords
            (build (assembled_aip p) (assembled_oip p)).tensor_data t x) ∧
      (∀ t x, fD t x
        = Df (build (assembled_aip p) (assembled_oip p)).jacobian_coords
            (build (assembled_aip p) (assembled_oip p)).jacobian_data t x) := by
  refine ⟨f (build (assembled_aip p) (assembled_oip p)).tensor_coords
      (build (assembled_aip p) (assembled_oip p)).tensor_data,
    Df (build (assembled_aip p) (assembled_oip p)).jacobian_coords
      (build (assembled_aip p) (assembled_oip p)).jacobian_data,
    ?_, ?_, ?_, ?_, fun t x => rfl, fun t x => rfl⟩
  all_goals cases rip <;> cases rq <;> rfl

/-- C10: `create_tendencies` returns a list whose element 0 is the tendency
evaluator and element 1 the Jacobian evaluator; with `return_inner_products`
the inner-products pair is appended next, with `return_qgtensor` the tensor
object is appended last, so with both flags the order is
`[f, Df, (aip, oip), qgtensor]`. -/
theorem claim_C10_return_list_shape
    (build : Option AtmosphericInnerProducts → Option OceanicInnerProducts →
      QgsTensor R)
    (p : QgParams) :
    ∃ ff fD aip oip qg,
      create_tendencies build p false false
        = [RetItem.evalF ff, RetItem.evalDf fD] ∧
      create_tendencies build p true false
        = [RetItem.evalF ff, RetItem.evalDf fD, RetItem.innerProducts aip oip] ∧
      create_tendencies build p false true
        = [RetItem.evalF ff, RetItem.evalDf fD, RetItem.qgtensor qg] ∧
      create_tendencies build p true true
        = [RetItem.evalF ff, RetItem.evalDf fD, RetItem.innerProducts aip oip,
           RetItem.qgtensor qg] := by
  refine ⟨f (build (assembled_aip p) (assembled_oip p)).tensor_coords
      (build (assembled_aip p) (assembled_oip p)).tensor_data,
    Df (build (assembled_aip p) (assembled_oip p)).jacobian_coords
      (build (assembled_aip p) (assembled_oip p)).jacobian_data,
    assembled_aip p, assembled_oip p,
    build (assembled_aip p) (assembled_oip p), rfl, rfl, rfl, rfl⟩

/-- Reading an appended list inside the first part reads the first part. -/
theorem getD_append_left {β : Type} (l1 l2 : List β) (d : β) {i : Nat}
    (h : i < l1.length) :
    (l1 ++ l2).getD i d = l1.getD i d := by
  rw [List.getD_eq_getElem?_getD, List.getD_eq_getElem?_getD,
    List.getElem?_append_left h]

/-- Reading just past a list after appending one element gives that element. -/
theorem getD_append_self {β : Type} (l1 : List β) (b : β) (d : β) :
    (l1 ++ [b]).getD l1.length d = b := by
  rw [List.getD_eq_getElem?_getD, List.getElem?_append_right (le_refl _)]
  simp

/-- Reading a doubly-appended list inside the first part reads the first part. -/
theorem getD_append_left2 {β : Type} (l1 l2 l3 : List β) (d : β) {i : Nat}
    (h : i < l1.length) :
    ((l1 ++ l2) ++ l3).getD i d = l1.getD i d := by
  rw [List.append_assoc]
  exact getD_append_left l1 _ d h

/-- Characterization of `f_impl`: store growth by fresh buffers only. -/
theorem f_impl_eq (coo : List (Nat × Nat × Nat)) (val : List R) (s : Store R)
    (t : R) (xid : Nat) :
    f_impl coo val s t xid
      = match sparse_mul3 coo val (augment (s.getD xid []))
            (augment (s.getD xid [])) with
        | none => (s ++ [augment (s.getD xid [])], none)
        | some xr => (s ++ [augment (s.getD xid [])] ++ [xr], some (xr.drop 1)) := by
  simp only [f_impl, np_concatenate_one]
  rw [getD_append_self s (1 :: s.getD xid []) []]
  rfl

/-- Characterization of `Df_impl`: store growth by a fresh buffer only. -/
theorem Df_impl_eq (jcoo : List (Nat × Nat × Nat)) (jval : List R) (s : Store R)
    (t : R) (xid : Nat) :
    Df_impl jcoo jval s t xid
      = match sparse_mul2 jcoo jval (augment (s.getD xid [])) with
        | none => (s ++ [augment (s.getD xid [])], none)
        | some m => (s ++ [augment (s.getD xid [])],
            some ((m.drop 1).map fun r => r.drop 1)) := by
  simp only [Df_impl, np_concatenate_one]
  rw [getD_append_self s (1 :: s.getD xid []) []]
  rfl

/-- C9: `f` and `Df` are pure with respect to their input: the augmented
vector is a freshly allocated buffer (numpy `concatenate` copies), so after a
call every pre-existing buffer — in particular the caller's `x` — is
unchanged, and the returned value is exactly the pure evaluator applied to
the contents of `x`. -/
theorem claim_C9_purity (coo jcoo : List (Nat × Nat × Nat)) (val jval : List R)
    (s : Store R) (t : R) (xid : Nat) (hx : xid < s.length) :
    (∀ i, i < s.length →
      (f_impl coo val s t xid).1.getD i [] = s.getD i []) ∧
    (f_impl coo val s t xid).2 = f coo val t (s.getD xid []) ∧
    (∀ i, i < s.length →
      (Df_impl jcoo jval s t xid).1.getD i [] = s.getD i []) ∧
    (Df_impl jcoo jval s t xid).2 = Df jcoo jval t (s.getD xid []) := by
  have hxlt : xid < s.length := hx
  refine ⟨?_, ?_, ?_, ?_⟩
  · intro i hi
    rw [f_impl_eq]
    cases sparse_mul3 coo val (augment (s.getD xid [])) (augment (s.getD xid [])) with
    | none => exact getD_append_left s _ [] hi
    | some xr => exact getD_append_left2 s _ [xr] [] hi
  · rw [f_impl_eq, f]
    cases sparse_mul3 coo val (augment (s.getD xid [])) (augment (s.getD xid [])) <;> rfl
  · intro i hi
    rw [Df_impl_eq]
    cases sparse_mul2 jcoo jval (augment (s.getD xid [])) with
    | none => exact getD_append_left s _ [] hi
    | some m => exact getD_append_left s _ [] hi
  · rw [Df_impl_eq, Df]
    cases sparse_mul2 jcoo jval (augment (s.getD xid [])) <;> rfl

/-- Witness for C9 on a one-buffer store. -/
theorem claim_C9_witness :
    (∀ i, i < ([[7, 8]] : Store ℤ).length →
      (f_impl [(1, 0, 0)] [5] [[7, 8]] 0 0).1.getD i []
        = ([[7, 8]] : Store ℤ).getD i []) ∧
    (f_impl [(1, 0, 0)] [5] [[7, 8]] 0 0).2
      = f [(1, 0, 0)] [5] 0 (([[7, 8]] : Store ℤ).getD 0 []) ∧
    (∀ i, i < ([[7, 8]] : Store ℤ).length →
      (Df_impl [(1, 1, 1)] [-1] [[7, 8]] 0 0).1.getD i []
        = ([[7, 8]] : Store ℤ).getD i []) ∧
    (Df_impl [(1, 1, 1)] [-1] [[7, 8]] 0 0).2
      = Df [(1, 1, 1)] [-1] 0 (([[7, 8]] : Store ℤ).getD 0 []) :=
  claim_C9_purity [(1, 0, 0)] [(1, 1, 1)] [5] [-1] [[7, 8]] 0 0 (by decide)
